import Mathlib

/-!
Verification of the red-black tree implementation in `rbtree.h` / `rbtree.c`
(vijunag/rbtree).

The C code is an intrusive, pointer-based red-black tree.  We embed it
shallowly: the caller-owned nodes live in a heap modelled as an association
list from addresses (`Nat`) to node records, pointers are `Option Nat`
(`none` is the C `NULL`), and every C statement becomes an explicit heap
read or write.  A dereference of `NULL` (or of an address that is not in
the heap) makes the embedded computation return `none`, mirroring the
segmentation fault the C program would take.  Recursive C functions and the
`while` loops are given explicit fuel; running out of fuel also returns
`none`, so any `some` result of the embedding is a faithful record of a
finite, fault-free execution of the C code.

Keys are kept polymorphic (`K`), mirroring the C `void *key` plus a
caller-supplied `compareFunc`.
-/

namespace RbTreeC

/-- The C enum `NodeColor_t` from rbtree.h. -/
inductive NodeColor_t where
  | NODE_COLOR_NONE
  | NODE_COLOR_BLACK
  | NODE_COLOR_RED
  | NODE_COLOR_DOUBLE_BLACK
  | NODE_COLOR_MAX
deriving DecidableEq, Repr

export NodeColor_t (NODE_COLOR_NONE NODE_COLOR_BLACK NODE_COLOR_RED
  NODE_COLOR_DOUBLE_BLACK NODE_COLOR_MAX)

/-- The C `struct rbnode`: color, child and parent pointers, and the key
reference.  Pointers are `Option Nat` addresses into the heap. -/
structure rbnode (K : Type) where
  color : NodeColor_t
  left : Option Nat
  right : Option Nat
  parent : Option Nat
  key : K
deriving DecidableEq, Repr

/-- The C `struct rbtree`: root pointer, comparator, intrusive offset and
node count. -/
structure rbtree (K : Type) where
  root : Option Nat
  comparer : K → K → Int
  rb_offset : Nat
  size : Int

/-- The node heap: caller-owned `rbnode` storage, addressed by `Nat`. -/
abbrev Heap (K : Type) := List (Nat × rbnode K)

/-- Read the node stored at address `a` (the C `*a`). -/
def hget {K : Type} : Heap K → Nat → Option (rbnode K)
  | [], _ => none
  | (b, n) :: t, a => if b = a then some n else hget t a

/-- Overwrite the node stored at address `a`; a no-op if `a` is absent
(which never happens on addresses obtained from successful reads). -/
def hset {K : Type} : Heap K → Nat → rbnode K → Heap K
  | [], _, _ => []
  | (b, n) :: t, a, m => if b = a then (b, m) :: t else (b, n) :: hset t a m

/-- Write through a pointer: apply `f` to the node at address `a`.
Fails (like a C fault) if `a` is not a live node. -/
def wrF {K : Type} (h : Heap K) (a : Nat) (f : rbnode K → rbnode K) :
    Option (Heap K) :=
  match hget h a with
  | none => none
  | some n => some (hset h a (f n))

/-- Rotation directions, standing for the `dir`/`revdir` macro arguments of
`ROTATE_TREE`. -/
inductive Dir where
  | left
  | right
deriving DecidableEq, Repr

/-- The opposite direction (`revdir`). -/
def Dir.rev : Dir → Dir
  | .left => .right
  | .right => .left

/-- Read the `dir` child field of a node. -/
def childD {K : Type} (n : rbnode K) : Dir → Option Nat
  | .left => n.left
  | .right => n.right

/-- Overwrite the `dir` child field of a node. -/
def setChildD {K : Type} (d : Dir) (v : Option Nat) (n : rbnode K) :
    rbnode K :=
  match d with
  | .left => { n with left := v }
  | .right => { n with right := v }

/-- The `INIT_RBTREE` macro: resets `root`, `comparer` and `size` of an
existing tree struct (it does not touch `rb_offset`). -/
def INIT_RBTREE {K : Type} (t : rbtree K) (c : K → K → Int) : rbtree K :=
  { t with root := none, comparer := c, size := 0 }

/-- The `INIT_RBNODE` macro: null links, the key reference, color RED. -/
def INIT_RBNODE {K : Type} (k : K) : rbnode K :=
  { color := NODE_COLOR_RED, left := none, right := none, parent := none,
    key := k }

/-- The `INIT_RBTREE_TYPE` macro: like `INIT_RBTREE` but also records the
intrusive offset of the embedded `rbnode` member inside the caller record. -/
def INIT_RBTREE_TYPE {K : Type} (c : K → K → Int) (off : Nat) : rbtree K :=
  { root := none, comparer := c, rb_offset := off, size := 0 }

/-- The C function `BstInsert` (rbtree.h lines 156-175): recursive
unbalanced BST placement.  `comparer(root->key, node->key) > 0` descends
left, otherwise right; the node is attached at the first null link and the
`parent` pointers along the descent are reassigned on the way back up.
Returns the (unchanged) subtree root together with the updated heap. -/
def BstInsert {K : Type} (comparer : K → K → Int) :
    Nat → Heap K → Option Nat → Nat → Option (Heap K × Nat)
  | 0, _, _, _ => none
  | _ + 1, h, none, node => some (h, node)
  | fuel + 1, h, some root, node => do
    let rn ← hget h root
    let nn ← hget h node
    if 0 < comparer rn.key nn.key then do
      let res ← BstInsert comparer fuel h rn.left node
      let h1 ← wrF res.1 root (fun n => { n with left := some res.2 })
      let h2 ← wrF h1 res.2 (fun n => { n with parent := some root })
      some (h2, root)
    else do
      let res ← BstInsert comparer fuel h rn.right node
      let h1 ← wrF res.1 root (fun n => { n with right := some res.2 })
      let h2 ← wrF h1 res.2 (fun n => { n with parent := some root })
      some (h2, root)

/-- The C function `BstSearch` (rbtree.h lines 177-191).  The outer `none`
is a fault / fuel exhaustion; `some none` is the C `return NULL`
(key not found). -/
def BstSearch {K : Type} (comparer : K → K → Int) :
    Nat → Heap K → Option Nat → K → Option (Option Nat)
  | 0, _, _, _ => none
  | _ + 1, _, none, _ => some none
  | fuel + 1, h, some root, key => do
    let rn ← hget h root
    let ret := comparer rn.key key
    if ret = 0 then some (some root)
    else if 0 < ret then BstSearch comparer fuel h rn.left key
    else BstSearch comparer fuel h rn.right key

/-- The `ROTATE_TREE(dir, revdir, node, _root)` macro (rbtree.h lines
139-154), translated statement by statement.  `root` is the current value
of the `*_root` variable; the returned `Nat` is its value afterwards.
Note that the macro never updates `node->parent`. -/
def ROTATE_TREE {K : Type} (dir : Dir) (h : Heap K) (node : Nat)
    (root : Nat) : Option (Heap K × Nat) := do
  let nn ← hget h node
  -- rbnode_t *pivot = node->revdir;  (dereferenced below, so NULL faults)
  let pivot ← childD nn dir.rev
  let pv ← hget h pivot
  -- node->revdir = pivot->dir;
  let h ← wrF h node (setChildD dir.rev (childD pv dir))
  -- if (NULL != pivot->dir) pivot->dir->parent = node;
  let pv2 ← hget h pivot
  let h ← match childD pv2 dir with
    | none => some h
    | some c => wrF h c (fun n => { n with parent := some node })
  -- pivot->parent = node->parent;
  let nn2 ← hget h node
  let h ← wrF h pivot (fun n => { n with parent := nn2.parent })
  -- *_root / child-slot update, then pivot->dir = node;
  let nn3 ← hget h node
  match nn3.parent with
  | none => do
    let h ← wrF h pivot (setChildD dir (some node))
    some (h, pivot)
  | some pa => do
    let pn ← hget h pa
    let h ←
      if pn.left = some node then
        wrF h pa (fun n => { n with left := some pivot })
      else
        wrF h pa (fun n => { n with right := some pivot })
    let h ← wrF h pivot (setChildD dir (some node))
    some (h, root)

/-- The `SWAP_COLOR` macro local to `insertRbNode`. -/
def SWAP_COLOR {K : Type} (h : Heap K) (a b : Nat) : Option (Heap K) := do
  let na ← hget h a
  let c := na.color
  let nb ← hget h b
  let h1 ← wrF h a (fun n => { n with color := nb.color })
  let h2 ← wrF h1 b (fun n => { n with color := c })
  some h2

/-- The fixup `while` loop of `insertRbNode` (rbtree.h lines 285-328).
State: heap, the `rbnode` loop variable (a pointer, possibly NULL) and the
`root` local variable.  Returns the final heap and root. -/
def insertFix {K : Type} :
    Nat → Heap K → Option Nat → Nat → Option (Heap K × Nat)
  | 0, _, _, _ => none
  | fuel + 1, h, rbnodeP, root => do
    -- while (rbnode != root && rbnode->color != BLACK && rbnode->parent->color == RED)
    if rbnodeP = some root then some (h, root)
    else do
      let ra ← rbnodeP
      let rn ← hget h ra
      if rn.color = NODE_COLOR_BLACK then some (h, root)
      else do
        let pa ← rn.parent
        let pn ← hget h pa
        if pn.color ≠ NODE_COLOR_RED then some (h, root)
        else do
          -- rbnode_t *parent = rbnode->parent, *grandparent = parent->parent;
          let gpa ← pn.parent
          let gn ← hget h gpa
          let uncle : Option Nat :=
            if gn.left = some pa then gn.right else gn.left
          let isParentLeftChild : Bool := gn.left = some pa
          let uncleRed : Bool ← match uncle with
            | none => some false
            | some ua => do
              let un ← hget h ua
              some (decide (un.color = NODE_COLOR_RED))
          if uncleRed then do
            -- grandparent->color = RED; parent->color = uncle->color = BLACK;
            let ua ← uncle
            let h ← wrF h gpa (fun n => { n with color := NODE_COLOR_RED })
            let h ← wrF h ua (fun n => { n with color := NODE_COLOR_BLACK })
            let h ← wrF h pa (fun n => { n with color := NODE_COLOR_BLACK })
            insertFix fuel h (some gpa) root
          else if isParentLeftChild then do
            -- zig-zag: if (rbnode == parent->right) rotate left at parent
            let s ←
              if pn.right = some ra then do
                let hr ← ROTATE_TREE Dir.left h pa root
                let pn2 ← hget hr.1 pa
                -- rbnode = parent; parent = parent->parent;
                some (hr.1, hr.2, pn2.parent)
              else
                some (h, root, some pa)
            let hr2 ← ROTATE_TREE Dir.right s.1 gpa s.2.1
            let pv ← s.2.2
            let h3 ← SWAP_COLOR hr2.1 gpa pv
            -- rbnode = parent;  then continue the loop
            insertFix fuel h3 (some pv) hr2.2
          else do
            let s ←
              if pn.left = some ra then do
                let hr ← ROTATE_TREE Dir.right h pa root
                let pn2 ← hget hr.1 pa
                some (hr.1, hr.2, pn2.parent)
              else
                some (h, root, some pa)
            let hr2 ← ROTATE_TREE Dir.left s.1 gpa s.2.1
            let pv ← s.2.2
            let h3 ← SWAP_COLOR hr2.1 gpa pv
            insertFix fuel h3 (some pv) hr2.2

/-- The C function `insertRbNode` (rbtree.h lines 274-333): raw BST
placement, the fixup loop, final root recoloring, and the write of
`rbtree->root`.  Note that it never touches `rbtree->size`. -/
def insertRbNode {K : Type} (fuel : Nat) (t : rbtree K) (h : Heap K)
    (node : Nat) : Option (rbtree K × Heap K) := do
  let br ← BstInsert t.comparer fuel h t.root node
  let fixed ← insertFix fuel br.1 (some node) br.2
  let h2 ← wrF fixed.1 fixed.2
    (fun n => { n with color := NODE_COLOR_BLACK })
  some ({ t with root := some fixed.2 }, h2)

/-- The C function `InorderTraversal` (rbtree.h lines 335-348): recursive
in-order walk.  The printing of each key through `pfunc` is modelled as
collecting the visited keys into a list. -/
def InorderTraversal {K : Type} :
    Nat → Heap K → Option Nat → Option (List K)
  | 0, _, _ => none
  | _ + 1, _, none => some []
  | fuel + 1, h, some a => do
    let n ← hget h a
    let l ← InorderTraversal fuel h n.left
    let r ← InorderTraversal fuel h n.right
    some (l ++ [n.key] ++ r)

/-- The C wrapper `inorderTraversal` (rbtree.h lines 350-353).  The fuel
`h.length + 1` bounds the recursion depth by the number of live nodes, so
it suffices for every acyclic tree stored in the heap. -/
def inorderTraversal {K : Type} (t : rbtree K) (h : Heap K) :
    Option (List K) :=
  InorderTraversal (h.length + 1) h t.root

/-- The C wrapper `searchKey` (rbtree.h lines 355-358). -/
def searchKey {K : Type} (fuel : Nat) (t : rbtree K) (h : Heap K) (key : K) :
    Option (Option Nat) :=
  BstSearch t.comparer fuel h t.root key

/-- The `while (NULL != p->left) p = p->left;` loop inside `BstDelete`
case 3 (in-order successor search). -/
def leftmostFrom {K : Type} : Nat → Heap K → Nat → Option Nat
  | 0, _, _ => none
  | fuel + 1, h, p => do
    let pn ← hget h p
    match pn.left with
    | none => some p
    | some l => leftmostFrom fuel h l

/-- The C function `BstDelete` (rbtree.h lines 211-257), translated
statement by statement, including the fall-through from the leaf case into
the one-child case (there is no `return` or `else` between them in the
source).  Returns the new root pointer together with the updated heap;
`none` is a fault. -/
def BstDelete {K : Type} (fuel : Nat) (h : Heap K) (root : Option Nat)
    (node : Nat) : Option (Heap K × Option Nat) := do
  let nn ← hget h node
  -- case 1: delete a leaf
  let step1 ←
    if nn.left = none ∧ nn.right = none then
      match nn.parent with
      | none => some (Sum.inl (h, (none : Option Nat)))  -- return NULL;
      | some pa => do
        let pn ← hget h pa
        let h ←
          if pn.left = some node then
            wrF h pa (fun n => { n with left := none })
          else
            wrF h pa (fun n => { n with right := none })
        some (Sum.inr h)
    else some (Sum.inr h)
  match step1 with
  | Sum.inl early => some early
  | Sum.inr h => do
    let nn ← hget h node
    if ¬(nn.left ≠ none ∧ nn.right ≠ none) then do
      -- case 2: node with (at most) one child; parent is dereferenced
      -- unconditionally, and so is the spliced-in child.
      let pa ← nn.parent
      let pn ← hget h pa
      let c := if nn.left ≠ none then nn.left else nn.right
      let h ←
        if pn.left = some node then do
          let h ← wrF h pa (fun n => { n with left := c })
          let ca ← c
          wrF h ca (fun n => { n with parent := some pa })
        else do
          let h ← wrF h pa (fun n => { n with right := c })
          let ca ← c
          wrF h ca (fun n => { n with parent := some pa })
      some (h, root)
    else do
      -- case 3: node with both children; splice the in-order successor p
      let pstart ← nn.right
      let p ← leftmostFrom fuel h pstart
      let pn ← hget h p
      let h ← match pn.right with
        | some _ => do
          -- p->parent->left = p->right; p->right->parent = p->parent;
          let pn1 ← hget h p
          let ppa ← pn1.parent
          let h ← wrF h ppa (fun n => { n with left := pn1.right })
          let pn2 ← hget h p
          let pra ← pn2.right
          wrF h pra (fun n => { n with parent := pn2.parent })
        | none => do
          let ppa ← pn.parent
          wrF h ppa (fun n => { n with left := none })
      -- relink node's parent slot to p
      let nn2 ← hget h node
      let h ← match nn2.parent with
        | some npa => do
          let npn ← hget h npa
          if npn.left = some node then
            wrF h npa (fun n => { n with left := some p })
          else if npn.right = some node then
            wrF h npa (fun n => { n with right := some p })
          else some h
        | none => some h
      -- p->left = node->left; p->right = node->right; p->parent = node->parent;
      let nn3 ← hget h node
      let h ← wrF h p (fun n => { n with left := nn3.left })
      let nn4 ← hget h node
      let h ← wrF h p (fun n => { n with right := nn4.right })
      let nn5 ← hget h node
      let h ← wrF h p (fun n => { n with parent := nn5.parent })
      let root2 := if root = some node then some p else root
      some (h, root2)

/-- The C function `deleteRbNode` (rbtree.h lines 360-363): it calls
`BstDelete` into a local variable and returns without writing any field of
the tree struct. -/
def deleteRbNode {K : Type} (fuel : Nat) (t : rbtree K) (h : Heap K)
    (node : Nat) : Option (rbtree K × Heap K) := do
  let r ← BstDelete fuel h t.root node
  some (t, r.1)

/-- The `RBTREE_SEARCH(_tree, _type, _key)` macro (rbtree.h lines 105-113):
search, then recover the enclosing caller record by subtracting the
configured intrusive offset from the node address. -/
def RBTREE_SEARCH {K : Type} (fuel : Nat) (t : rbtree K) (h : Heap K)
    (key : K) : Option (Option Nat) := do
  let node ← BstSearch t.comparer fuel h t.root key
  match node with
  | none => some none
  | some a => some (some (a - t.rb_offset))

/-- The `intcomparer` from rbtree.c. -/
def intcomparer (a b : Int) : Int :=
  if a = b then 0 else if a < b then -1 else 1

/-- The `foocomparer` from rbtree.c (compares the `key` member of the
embedded `Foo` struct; modelled directly on the integer key). -/
def foocomparer (a b : Int) : Int :=
  if a = b then 0 else if a < b then -1 else 1

/-! ### Derived checkers used to state the invariants -/

/-- The multiset of black-node counts of all root-to-null paths, as a list
(one entry per null link, left to right). -/
def blackCounts {K : Type} : Nat → Heap K → Option Nat → Option (List Nat)
  | 0, _, _ => none
  | _ + 1, _, none => some [0]
  | fuel + 1, h, some a => do
    let n ← hget h a
    let l ← blackCounts fuel h n.left
    let r ← blackCounts fuel h n.right
    let add := if n.color = NODE_COLOR_BLACK then 1 else 0
    some ((l ++ r).map (· + add))

/-- Invariant 4 of the data model: every root-to-null path passes through
the same number of BLACK nodes. -/
def blackBalanced {K : Type} (fuel : Nat) (h : Heap K) (root : Option Nat) :
    Bool :=
  match blackCounts fuel h root with
  | some (x :: xs) => xs.all (· = x)
  | some [] => true
  | none => false

/-- Invariant 2 of the data model: the root node is BLACK. -/
def rootIsBlack {K : Type} (t : rbtree K) (h : Heap K) : Bool :=
  match t.root with
  | none => false
  | some a =>
    match hget h a with
    | some n => n.color = NODE_COLOR_BLACK
    | none => false

/-- Caller-side idiom from rbtree.c: allocate a fresh node (`INIT_RBNODE`)
at address `a` and then `insertRbNode` it. -/
def insertNew {K : Type} (fuel : Nat) (st : rbtree K × Heap K) (a : Nat)
    (k : K) : Option (rbtree K × Heap K) :=
  insertRbNode fuel st.1 (st.2 ++ [(a, INIT_RBNODE k)]) a

/-! ### Spec-side definitions (written from the specification's words, for
the refinement claims about search and placement) -/

/-- Modelled from the spec (§4.2): the descent path of a search — the
visited nodes with their keys, comparing the sought key at each node,
strictly-greater stored key going left, otherwise right, stopping at the
first node whose key compares equal or at a null link. -/
def searchVisited {K : Type} (comparer : K → K → Int) (key : K) :
    Nat → Heap K → Option Nat → Option (List (Nat × K))
  | 0, _, _ => none
  | _ + 1, _, none => some []
  | fuel + 1, h, some a => do
    let n ← hget h a
    if comparer n.key key = 0 then some [(a, n.key)]
    else do
      let rest ← searchVisited comparer key fuel h
        (if 0 < comparer n.key key then n.left else n.right)
      some ((a, n.key) :: rest)

/-- Modelled from the spec (§4.2): the placement descent path for a new
key — a strictly-less new key (that is, `comparer stored new > 0`) goes
left, everything else including ties goes right, and the path ends at the
first null link. -/
def specPlacePath {K : Type} (comparer : K → K → Int) (key : K) :
    Nat → Heap K → Option Nat → Option (List Nat)
  | 0, _, _ => none
  | _ + 1, _, none => some []
  | fuel + 1, h, some a => do
    let n ← hget h a
    let rest ← specPlacePath comparer key fuel h
      (if 0 < comparer n.key key then n.left else n.right)
    some (a :: rest)

/-! ### Concrete scenarios used by the individual claims -/

/-- An `INIT_RBTREE`-initialised integer tree (the initial struct contents
before the macro runs are immaterial; the macro overwrites `root`,
`comparer` and `size`). -/
def t0 : rbtree Int := INIT_RBTREE ⟨none, intcomparer, 0, 0⟩ intcomparer

/-- Insert the keys 1, 3, 2, in that order, into an empty tree (node
addresses equal to the keys). -/
def c1Run : Option (rbtree Int × Heap Int) := do
  let s1 ← insertNew 20 (t0, ([] : Heap Int)) 1 1
  let s2 ← insertNew 20 s1 3 3
  insertNew 20 s2 2 2

/-- A two-node heap for exercising `ROTATE_TREE` directly: the BLACK root
at address 10 with a RED right child at address 20. -/
def c2Heap : Heap Int :=
  [(10, ⟨NODE_COLOR_BLACK, none, some 20, none, 10⟩),
   (20, ⟨NODE_COLOR_RED, none, none, some 10, 20⟩)]

/-- Insert the keys 2, 1, 3, 4, in that order (a valid red-black tree:
2 and 1 and 3 BLACK, 4 RED). -/
def c3PreRun : Option (rbtree Int × Heap Int) := do
  let s1 ← insertNew 20 (t0, ([] : Heap Int)) 2 2
  let s2 ← insertNew 20 s1 1 1
  let s3 ← insertNew 20 s2 3 3
  insertNew 20 s3 4 4

/-- After the 2, 1, 3, 4 inserts, delete the BLACK node 3 (which has the
single RED child 4). -/
def c3Run : Option (rbtree Int × Heap Int) := do
  let s ← c3PreRun
  deleteRbNode 20 s.1 s.2 3

/-- Insert key 1 (the root), then key 2 (a RED leaf, the root's right
child), then delete the leaf node 2. -/
def c5Run : Option (rbtree Int × Heap Int) := do
  let s1 ← insertNew 20 (t0, ([] : Heap Int)) 1 1
  let s2 ← insertNew 20 s1 2 2
  deleteRbNode 20 s2.1 s2.2 2

/-- Scenario 1 of the spec: insert 7, 6, 5, 4 in that order. -/
def c8aRun : Option (rbtree Int × Heap Int) := do
  let s1 ← insertNew 20 (t0, ([] : Heap Int)) 7 7
  let s2 ← insertNew 20 s1 6 6
  let s3 ← insertNew 20 s2 5 5
  insertNew 20 s3 4 4

/-- Insert 2, 1, 3 and then delete the root node 2 (which has two
children whose in-order successor is its immediate right child). -/
def c8bRun : Option (rbtree Int × Heap Int) := do
  let s1 ← insertNew 20 (t0, ([] : Heap Int)) 2 2
  let s2 ← insertNew 20 s1 1 1
  let s3 ← insertNew 20 s2 3 3
  deleteRbNode 20 s3.1 s3.2 2

/-- The tree struct `c8bRun` ends with: `tree->root` still points at the
deleted node 2 because `deleteRbNode` discards the root returned by
`BstDelete`. -/
def c8bTree : rbtree Int :=
  { root := some 2, comparer := intcomparer, rb_offset := 0, size := 0 }

/-- The heap `c8bRun` ends with: node 2 is still the root, its left link
was clobbered to null, and node 3 ends with `right = some 3` — a
self-cycle created by `p->right = node->right` when the successor `p` is
`node->right` itself. -/
def c8bHeap : Heap Int :=
  [(2, ⟨NODE_COLOR_BLACK, none, some 3, none, 2⟩),
   (1, ⟨NODE_COLOR_RED, none, none, some 2, 1⟩),
   (3, ⟨NODE_COLOR_RED, none, some 3, none, 3⟩)]

/-- Scenario 4 of the spec: a `Bar` record embeds its `rbnode` at offset
16; the three records live at base addresses 100, 200, 300, so their
embedded nodes live at 116, 216, 316.  Keys 1, 2, 3 are inserted via the
intrusive mechanism. -/
def barT : rbtree Int := INIT_RBTREE_TYPE foocomparer 16

/-- Build the three-record intrusive tree of scenario 4. -/
def c9Run : Option (rbtree Int × Heap Int) := do
  let s1 ← insertNew 20 (barT, ([] : Heap Int)) 116 1
  let s2 ← insertNew 20 s1 216 2
  insertNew 20 s2 316 3

/-- A one-node tree used to witness the `deleteRbNode` frame property. -/
def c10Tree : rbtree Int :=
  { root := some 1, comparer := intcomparer, rb_offset := 0, size := 0 }

/-- The heap of `c10Tree`: a single BLACK root node. -/
def c10Heap : Heap Int :=
  [(1, ⟨NODE_COLOR_BLACK, none, none, none, 1⟩)]

/-- A two-node heap for witnessing the placement theorem: a BLACK root
(address 1, key 5) and a fresh RED node (address 2, key 7) about to be
inserted. -/
def c7WHeap : Heap Int :=
  [(1, ⟨NODE_COLOR_BLACK, none, none, none, 5⟩), (2, INIT_RBNODE 7)]

/-- The heap after `BstInsert` places node 2 under node 1: the root's
right link and the new node's parent link are set. -/
def c7WHeap2 : Heap Int :=
  [(1, ⟨NODE_COLOR_BLACK, none, some 2, none, 5⟩),
   (2, ⟨NODE_COLOR_RED, none, none, some 1, 7⟩)]

/-! ### Helper lemmas about the heap -/

theorem wrF_eq_some {K : Type} {h h2 : Heap K} {a : Nat}
    {f : rbnode K → rbnode K} (hw : wrF h a f = some h2) :
    ∃ n, hget h a = some n ∧ h2 = hset h a (f n) := by
  unfold wrF at hw
  cases hg : hget h a <;> rw [hg] at hw
  · exact absurd hw (by simp)
  · exact ⟨_, rfl, by injection hw with hw; exact hw.symm⟩

theorem hget_hset_ne {K : Type} (h : Heap K) {a b : Nat} (m : rbnode K)
    (hab : a ≠ b) : hget (hset h a m) b = hget h b := by
  induction h with
  | nil => rfl
  | cons p t iht =>
    obtain ⟨c, n⟩ := p
    by_cases hc : c = a
    · subst hc
      simp only [hset, if_pos rfl, hget]
      rw [if_neg hab, if_neg hab]
    · simp only [hset, if_neg hc, hget]
      by_cases hcb : c = b
      · rw [if_pos hcb, if_pos hcb]
      · rw [if_neg hcb, if_neg hcb]; exact iht

theorem hget_hset_self {K : Type} (h : Heap K) {a : Nat} (m n : rbnode K)
    (ha : hget h a = some n) : hget (hset h a m) a = some m := by
  induction h with
  | nil => exact absurd ha (by simp [hget])
  | cons p t iht =>
    obtain ⟨c, n2⟩ := p
    by_cases hc : c = a
    · simp only [hset, if_pos hc, hget, if_pos hc]
    · simp only [hset, if_neg hc, hget, if_neg hc]
      simp only [hget, if_neg hc] at ha
      exact iht ha

/-- A node whose `right` pointer points back at itself makes the in-order
walk diverge: no amount of fuel produces a result. -/
theorem inorder_selfloop {K : Type} (h : Heap K) (a : Nat) :
    ∀ fuel (n : rbnode K), hget h a = some n → n.right = some a →
      InorderTraversal fuel h (some a) = none := by
  intro fuel
  induction fuel with
  | zero => intro n _ _; rfl
  | succ f ihf =>
    intro n hn hr
    simp only [InorderTraversal, hn, Option.bind_eq_bind, Option.some_bind]
    cases hl : InorderTraversal f h n.left with
    | none => rfl
    | some l =>
      rw [hr, ihf n hn hr]
      rfl

theorem getLast?_cons_ne_nil {α : Type} (a : α) {l : List α}
    (hl : l ≠ []) : (a :: l).getLast? = l.getLast? := by
  cases l with
  | nil => exact absurd rfl hl
  | cons b t => rfl

theorem mem_of_getLast? {α : Type} :
    ∀ {l : List α} {a : α}, l.getLast? = some a → a ∈ l := by
  intro l
  induction l with
  | nil => intro a hl; exact absurd hl (by simp)
  | cons b t iht =>
    intro a hl
    cases t with
    | nil =>
      have hba : b = a := by simpa using hl
      subst hba
      exact List.mem_cons_self b []
    | cons c t2 =>
      rw [getLast?_cons_ne_nil b (by simp)] at hl
      exact List.mem_cons_of_mem b (iht hl)

theorem mem_of_head? {α : Type} {l : List α} {a : α}
    (hl : l.head? = some a) : a ∈ l := by
  cases l with
  | nil => exact absurd hl (by simp)
  | cons b t =>
    have hba : b = a := by simpa using hl
    subst hba
    exact List.mem_cons_self b t

/-! ### Claim theorems -/

/-- C1: the claim states that every finite insertion sequence from an
`INIT_RBTREE`-empty tree satisfies all five invariants, in particular the
uniform black-height of invariant 4.  The code refutes this: inserting the
keys 1, 3, 2 (a zig-zag fixup case) leaves a tree whose root-to-null paths
contain 2, 2, 1 and 1 BLACK nodes respectively, because `ROTATE_TREE`
never updates `node->parent`, so the fixup's `parent = parent->parent`
reads a stale pointer and `SWAP_COLOR(grandparent, parent)` degenerates to
a self-swap.  The tree's own header documents invariant 4, so this is a
bug in the code, not in the claim. -/
theorem c1_insert_1_3_2_breaks_black_height :
    c1Run.map (fun s => blackCounts 10 s.2 s.1.root) =
      some (some [2, 2, 1, 1]) ∧
    c1Run.map (fun s => blackBalanced 10 s.2 s.1.root) = some false := by
  constructor <;> rfl

/-- C2: the claim states that after `rotate(direction, node)` every
reparented node — including `node` itself, which becomes the pivot's
child — has its `parent` link updated.  On the two-node heap `c2Heap`
(root 10 with right child 20), a left rotation at 10 does make 20 the new
root holding 10 as its left child, but node 10's `parent` field is still
`none` instead of `some 20`: the macro lacks a `node->parent = pivot`
assignment.  This omission is what breaks the insertion fixup (see C1), so
the code contradicts the documented rotation contract. -/
theorem c2_rotate_does_not_update_node_parent :
    (ROTATE_TREE Dir.left c2Heap 10 10).map
        (fun r => ((hget r.1 10).map rbnode.parent,
          (hget r.1 20).map rbnode.left, r.2)) =
      some (some none, some (some 10), 20) := by
  rfl

/-- C3: the claim states that after `deleteRbNode` the black-height
invariant is restored by the double-black fixup.  The code has no fixup at
all: `deleteRbNode` only calls `BstDelete` (and even discards its result).
Starting from the valid tree built by inserting 2, 1, 3, 4 (black-heights
all 2), deleting the BLACK node 3 splices its RED child 4 up without any
recoloring, leaving paths with 2, 2, 1, 1 BLACK nodes.  The spec itself
(§9) records that the implementation omits the documented fixup. -/
theorem c3_delete_black_node_breaks_black_height :
    c3PreRun.map (fun s => blackBalanced 10 s.2 s.1.root) = some true ∧
    c3Run.map (fun s => blackCounts 10 s.2 s.1.root) =
      some (some [2, 2, 1, 1]) ∧
    c3Run.map (fun s => blackBalanced 10 s.2 s.1.root) = some false := by
  refine ⟨?_, ?_, ?_⟩ <;> rfl

/-- C4: the claim states that `insertRbNode` increments `tree->size` and
`deleteRbNode` decrements it.  Neither function ever touches the `size`
field: after inserting one node into a fresh tree the size is still 0
(the claim requires 1), yet the struct declares and initialises the field
as the node count. -/
theorem c4_insert_does_not_increment_size :
    (insertNew 20 (t0, ([] : Heap Int)) 5 5).map (fun s => s.1.size) =
      some 0 ∧
    c1Run.map (fun s => s.1.size) = some 0 := by
  constructor <;> rfl

/-- C5: the claim states that deleting a zero-child member node simply
unlinks it from its parent, leaving the tree well-formed.  In the code the
leaf case of `BstDelete` clears the parent's child slot but does not
return, falling through into the one-child case, which re-reads the now
null child slot and dereferences it (`parent->right->parent = parent`).
Deleting the RED leaf 2 from the two-node tree {1, 2} therefore faults:
the embedded run returns `none` (a NULL dereference in C). -/
theorem c5_leaf_delete_null_dereference : c5Run = none := by
  rfl

/-- C8: the claim states that in-order traversal is non-decreasing after
any sequence of inserts and deletes, and in particular that after
inserting 7, 6, 5, 4 the root is BLACK and traversal yields 4, 5, 6, 7.
The concrete insert-only scenario does hold (first two conjuncts).  But
the delete path refutes the general statement: inserting 2, 1, 3 and then
deleting the root 2 leaves `tree->root` pointing at the deleted node
(the splice result is discarded) and gives node 3 a `right` pointer to
itself, so the traversal diverges and yields no key sequence at all, for
any amount of fuel (last conjunct). -/
theorem c8_traversal_sorted_only_without_deletes :
    c8aRun.map (fun s => inorderTraversal s.1 s.2) =
      some (some [4, 5, 6, 7]) ∧
    c8aRun.map (fun s => rootIsBlack s.1 s.2) = some true ∧
    c8bRun = some (c8bTree, c8bHeap) ∧
    ∀ fuel, InorderTraversal fuel c8bHeap c8bTree.root = none := by
  refine ⟨rfl, rfl, rfl, ?_⟩
  intro fuel
  show InorderTraversal fuel c8bHeap (some 2) = none
  cases fuel with
  | zero => rfl
  | succ f =>
    have h3 : InorderTraversal f c8bHeap (some 3) = none :=
      inorder_selfloop c8bHeap 3 f ⟨NODE_COLOR_RED, none, some 3, none, 3⟩
        rfl rfl
    cases f with
    | zero => rfl
    | succ f2 =>
      show Option.bind (InorderTraversal (f2 + 1) c8bHeap (some 3))
        (fun r => some ([] ++ [(2 : Int)] ++ r)) = none
      rw [h3]
      rfl

/-- C9: scenario 4 of the spec.  Three caller records at base addresses
100, 200, 300 embed their `rbnode` at offset 16 (so the nodes live at
addresses 116, 216, 316) and carry keys 1, 2, 3.  `RBTREE_SEARCH` for
key 1 returns the enclosing record of the matching node by address
identity — base address 100, recovered by subtracting the configured
`rb_offset` — and the search for the absent key 4 returns the NULL
not-found result. -/
theorem c9_intrusive_search_returns_enclosing_record :
    c9Run.map (fun s => RBTREE_SEARCH 20 s.1 s.2 1) =
      some (some (some 100)) ∧
    c9Run.map (fun s => RBTREE_SEARCH 20 s.1 s.2 4) = some (some none) := by
  constructor <;> rfl

/-- C10: `deleteRbNode` computes the spliced root into a local variable
and returns without writing any field of the tree struct, so whenever it
returns at all the tree struct is bit-for-bit unchanged: `root`, `size`,
`comparer` and `rb_offset` are those of the input, and if the deleted node
was the root then `tree->root` still points at the deleted node. -/
theorem c10_deleteRbNode_never_writes_tree {K : Type} :
    ∀ (fuel : Nat) (t : rbtree K) (h : Heap K) (node : Nat)
      (t2 : rbtree K) (h2 : Heap K),
      deleteRbNode fuel t h node = some (t2, h2) →
      t2.root = t.root ∧ t2.size = t.size ∧ t2.comparer = t.comparer ∧
        t2.rb_offset = t.rb_offset ∧
        (t.root = some node → t2.root = some node) := by
  intro fuel t h node t2 h2 hdel
  unfold deleteRbNode at hdel
  cases hb : BstDelete fuel h t.root node <;> rw [hb] at hdel
  · exact absurd hdel (by simp)
  · simp only [Option.bind_eq_bind, Option.some_bind, Option.some.injEq,
      Prod.mk.injEq] at hdel
    obtain ⟨ht, _⟩ := hdel
    rw [← ht]
    exact ⟨rfl, rfl, rfl, rfl, fun hr => hr⟩

/-- Witness for C10: deleting the root of the one-node tree succeeds and
leaves every field of the tree struct unchanged (the root still points at
the removed node). -/
theorem c10_witness :
    deleteRbNode 20 c10Tree c10Heap 1 = some (c10Tree, c10Heap) ∧
    (c10Tree.root = c10Tree.root ∧ c10Tree.size = c10Tree.size ∧
      c10Tree.comparer = c10Tree.comparer ∧
      c10Tree.rb_offset = c10Tree.rb_offset ∧
      (c10Tree.root = some 1 → c10Tree.root = some 1)) :=
  ⟨rfl, c10_deleteRbNode_never_writes_tree 20 c10Tree c10Heap 1 c10Tree
    c10Heap rfl⟩

/-- C6: for every heap, tree and key, `BstSearch` equals the
specification-side description: compute the descent path (comparing the
sought key at each visited node) and return the first node on that path
whose key compares equal, or the NULL not-found result if the path ends at
a null link; and on an empty tree (`root = NULL`) the search returns
not-found immediately, without any fault. -/
theorem c6_search_first_equal_on_descent {K : Type} (cmp : K → K → Int) :
    (∀ (fuel : Nat) (h : Heap K) (r : Option Nat) (k : K),
        BstSearch cmp fuel h r k =
          (searchVisited cmp k fuel h r).map
            (fun l => (l.find? (fun p => cmp p.2 k == 0)).map Prod.fst)) ∧
    (∀ (fuel : Nat) (t : rbtree K) (h : Heap K) (k : K),
        searchKey (fuel + 1) { t with root := none } h k = some none) := by
  constructor
  · intro fuel
    induction fuel with
    | zero => intro h r k; rfl
    | succ f ih =>
      intro h r k
      cases r with
      | none => rfl
      | some a =>
        simp only [BstSearch, searchVisited, Option.bind_eq_bind]
        cases hga : hget h a with
        | none => rfl
        | some n =>
          simp only [Option.some_bind]
          by_cases h0 : cmp n.key k = 0
          · rw [if_pos h0, if_pos h0]
            simp [List.find?, h0]
          · rw [if_neg h0, if_neg h0]
            by_cases hlt : 0 < cmp n.key k
            · rw [if_pos hlt, if_pos hlt, ih h n.left k]
              cases hsv : searchVisited cmp k f h n.left with
              | none => rfl
              | some rest =>
                show some ((List.find? (fun p => cmp p.2 k == 0) rest).map
                    Prod.fst) =
                  some ((List.find? (fun p => cmp p.2 k == 0)
                    ((a, n.key) :: rest)).map Prod.fst)
                rw [List.find?_cons_of_neg _ (by simp [h0])]
            · rw [if_neg hlt, if_neg hlt, ih h n.right k]
              cases hsv : searchVisited cmp k f h n.right with
              | none => rfl
              | some rest =>
                show some ((List.find? (fun p => cmp p.2 k == 0) rest).map
                    Prod.fst) =
                  some ((List.find? (fun p => cmp p.2 k == 0)
                    ((a, n.key) :: rest)).map Prod.fst)
                rw [List.find?_cons_of_neg _ (by simp [h0])]
  · intro fuel t h k
    rfl

/-- C7: whenever `BstInsert` returns, its placement followed the
spec-side descent `specPlacePath` — at each visited node a strictly-less
new key (`comparer stored new > 0`) went left and everything else,
including keys comparing equal, went right (so a later duplicate lands in
the right subtree of the matching node) — and the new node was linked at
the first null position: in the input heap the final path node's
descent-side child was null, in the output heap that slot holds the new
node and the new node's `parent` points at that final path node.  The
freshness hypotheses (`path.Nodup`, `na ∉ path`) hold for every genuine
tree, where no address occurs twice on a descent path and the inserted
node is caller-allocated outside the tree. -/
theorem c7_BstInsert_places_at_first_null {K : Type} (cmp : K → K → Int) :
    ∀ (fuel : Nat) (h : Heap K) (root : Option Nat) (na : Nat)
      (nn : rbnode K) (h2 : Heap K) (r2 : Nat) (path : List Nat),
      hget h na = some nn →
      BstInsert cmp fuel h root na = some (h2, r2) →
      specPlacePath cmp nn.key fuel h root = some path →
      path.Nodup → na ∉ path →
      ((root = none → path = [] ∧ r2 = na ∧ h2 = h) ∧
       (∀ r, root = some r → r2 = r ∧ path ≠ [] ∧ path.head? = some r) ∧
       (∀ p, path.getLast? = some p →
         ∃ pn pn2 nn2, hget h p = some pn ∧ hget h2 p = some pn2 ∧
           hget h2 na = some nn2 ∧ nn2.parent = some p ∧
           (if 0 < cmp pn.key nn.key
            then pn.left = none ∧ pn2.left = some na
            else pn.right = none ∧ pn2.right = some na))) := by
  intro fuel
  induction fuel with
  | zero =>
    intro h root na nn h2 r2 path hn hrun hpath hnd hfresh
    exact absurd hrun (by simp [BstInsert])
  | succ f ih =>
    intro h root na nn h2 r2 path hn hrun hpath hnd hfresh
    cases root with
    | none =>
      simp only [BstInsert, Option.some.injEq, Prod.mk.injEq] at hrun
      simp only [specPlacePath, Option.some.injEq] at hpath
      obtain ⟨hh, hr⟩ := hrun
      subst hh
      subst hr
      subst hpath
      exact ⟨fun _ => ⟨rfl, rfl, rfl⟩, fun r hr0 => Option.noConfusion hr0,
        fun p hp => absurd hp (by simp)⟩
    | some r =>
      simp only [BstInsert, Option.bind_eq_bind] at hrun
      simp only [specPlacePath, Option.bind_eq_bind] at hpath
      cases hgr : hget h r with
      | none =>
        rw [hgr] at hrun
        exact absurd hrun (by simp)
      | some rn =>
        rw [hgr] at hrun hpath
        rw [hn] at hrun
        simp only [Option.some_bind] at hrun hpath
        by_cases hc : 0 < cmp rn.key nn.key
        · rw [if_pos hc] at hrun hpath
          cases hb : BstInsert cmp f h rn.left na with
          | none =>
            rw [hb] at hrun
            exact absurd hrun (by simp)
          | some res =>
            obtain ⟨h1, a⟩ := res
            rw [hb] at hrun
            simp only [Option.some_bind] at hrun
            cases hw1 : wrF h1 r (fun n => { n with left := some a }) with
            | none =>
              rw [hw1] at hrun
              exact absurd hrun (by simp)
            | some hb1 =>
              rw [hw1] at hrun
              simp only [Option.some_bind] at hrun
              cases hw2 : wrF hb1 a
                  (fun n => { n with parent := some r }) with
              | none =>
                rw [hw2] at hrun
                exact absurd hrun (by simp)
              | some hb2 =>
                rw [hw2] at hrun
                simp only [Option.some_bind, Option.some.injEq,
                  Prod.mk.injEq] at hrun
                obtain ⟨hh2, hr2⟩ := hrun
                cases hsp : specPlacePath cmp nn.key f h rn.left with
                | none =>
                  rw [hsp] at hpath
                  exact absurd hpath (by simp)
                | some rest =>
                  rw [hsp] at hpath
                  simp only [Option.some_bind, Option.some.injEq] at hpath
                  subst hpath
                  rw [List.nodup_cons] at hnd
                  obtain ⟨hrnotin, hndrest⟩ := hnd
                  rw [List.mem_cons, not_or] at hfresh
                  obtain ⟨hnar, hnarest⟩ := hfresh
                  obtain ⟨w1n, hg1r, hb1eq⟩ := wrF_eq_some hw1
                  obtain ⟨w2n, hg2a, hb2eq⟩ := wrF_eq_some hw2
                  obtain ⟨ihA, ihB, ihC⟩ :=
                    ih h rn.left na nn h1 a rest hn hb hsp hndrest hnarest
                  subst hh2
                  subst hr2
                  cases hrl : rn.left with
                  | none =>
                    obtain ⟨hrest, ha, hh1⟩ := ihA hrl
                    subst hrest
                    subst ha
                    subst hh1
                    rw [hgr] at hg1r
                    injection hg1r with hw1n
                    subst hw1n
                    have hgb1na : hget hb1 a = some nn := by
                      rw [hb1eq, hget_hset_ne _ _ (fun he => hnar he.symm)]
                      exact hn
                    rw [hgb1na] at hg2a
                    injection hg2a with hw2n
                    subst hw2n
                    refine ⟨fun h0 => Option.noConfusion h0,
                      fun r0 hr0 => ?_, fun p hp => ?_⟩
                    · injection hr0 with hr0
                      subst hr0
                      exact ⟨rfl, by simp, rfl⟩
                    · have hpr : r = p := by simpa using hp
                      subst hpr
                      refine ⟨rn, { rn with left := some a },
                        { nn with parent := some r }, hgr, ?_, ?_, rfl, ?_⟩
                      · rw [hb2eq, hget_hset_ne _ _ (fun he => hnar he),
                          hb1eq, hget_hset_self _ _ _ hgr]
                      · rw [hb2eq, hget_hset_self _ _ _ hgb1na]
                      · rw [if_pos hc]
                        exact ⟨hrl, rfl⟩
                  | some c =>
                    obtain ⟨ha, hrestne, hresthd⟩ := ihB c hrl
                    subst ha
                    refine ⟨fun h0 => Option.noConfusion h0,
                      fun r0 hr0 => ?_, fun p hp => ?_⟩
                    · injection hr0 with hr0
                      subst hr0
                      exact ⟨rfl, by simp, rfl⟩
                    · rw [getLast?_cons_ne_nil r hrestne] at hp
                      obtain ⟨pn, pn1, nn1, hpnh, hpn1, hnn1, hpar, hcond⟩ :=
                        ihC p hp
                      have hpmem : p ∈ rest := mem_of_getLast? hp
                      have hcmem : a ∈ rest := mem_of_head? hresthd
                      have hpr : p ≠ r := fun he => hrnotin (he ▸ hpmem)
                      have hnap : na ≠ p := fun he => hnarest (he ▸ hpmem)
                      have hnac : na ≠ a := fun he => hnarest (he ▸ hcmem)
                      have hacr : a ≠ r := fun he => hrnotin (he ▸ hcmem)
                      have hgb1na : hget hb1 na = some nn1 := by
                        rw [hb1eq, hget_hset_ne _ _ (fun he => hnar he.symm)]
                        exact hnn1
                      have hgb2na : hget hb2 na = some nn1 := by
                        rw [hb2eq, hget_hset_ne _ _ (fun he => hnac he.symm)]
                        exact hgb1na
                      by_cases hpc : p = a
                      · subst hpc
                        have hgb1p : hget hb1 p = some pn1 := by
                          rw [hb1eq,
                            hget_hset_ne _ _ (fun he => hpr he.symm)]
                          exact hpn1
                        rw [hgb1p] at hg2a
                        injection hg2a with hw2n
                        subst hw2n
                        refine ⟨pn, { pn1 with parent := some r }, nn1,
                          hpnh, ?_, hgb2na, hpar, ?_⟩
                        · rw [hb2eq, hget_hset_self _ _ _ hgb1p]
                        · by_cases hcp : 0 < cmp pn.key nn.key
                          · rw [if_pos hcp]
                            rw [if_pos hcp] at hcond
                            exact ⟨hcond.1, hcond.2⟩
                          · rw [if_neg hcp]
                            rw [if_neg hcp] at hcond
                            exact ⟨hcond.1, hcond.2⟩
                      · have hgb2p : hget hb2 p = some pn1 := by
                          rw [hb2eq,
                            hget_hset_ne _ _ (fun he => hpc he.symm),
                            hb1eq,
                            hget_hset_ne _ _ (fun he => hpr he.symm)]
                          exact hpn1
                        exact ⟨pn, pn1, nn1, hpnh, hgb2p, hgb2na, hpar,
                          hcond⟩
        · rw [if_neg hc] at hrun hpath
          cases hb : BstInsert cmp f h rn.right na with
          | none =>
            rw [hb] at hrun
            exact absurd hrun (by simp)
          | some res =>
            obtain ⟨h1, a⟩ := res
            rw [hb] at hrun
            simp only [Option.some_bind] at hrun
            cases hw1 : wrF h1 r (fun n => { n with right := some a }) with
            | none =>
              rw [hw1] at hrun
              exact absurd hrun (by simp)
            | some hb1 =>
              rw [hw1] at hrun
              simp only [Option.some_bind] at hrun
              cases hw2 : wrF hb1 a
                  (fun n => { n with parent := some r }) with
              | none =>
                rw [hw2] at hrun
                exact absurd hrun (by simp)
              | some hb2 =>
                rw [hw2] at hrun
                simp only [Option.some_bind, Option.some.injEq,
                  Prod.mk.injEq] at hrun
                obtain ⟨hh2, hr2⟩ := hrun
                cases hsp : specPlacePath cmp nn.key f h rn.right with
                | none =>
                  rw [hsp] at hpath
                  exact absurd hpath (by simp)
                | some rest =>
                  rw [hsp] at hpath
                  simp only [Option.some_bind, Option.some.injEq] at hpath
                  subst hpath
                  rw [List.nodup_cons] at hnd
                  obtain ⟨hrnotin, hndrest⟩ := hnd
                  rw [List.mem_cons, not_or] at hfresh
                  obtain ⟨hnar, hnarest⟩ := hfresh
                  obtain ⟨w1n, hg1r, hb1eq⟩ := wrF_eq_some hw1
                  obtain ⟨w2n, hg2a, hb2eq⟩ := wrF_eq_some hw2
                  obtain ⟨ihA, ihB, ihC⟩ :=
                    ih h rn.right na nn h1 a rest hn hb hsp hndrest hnarest
                  subst hh2
                  subst hr2
                  cases hrl : rn.right with
                  | none =>
                    obtain ⟨hrest, ha, hh1⟩ := ihA hrl
                    subst hrest
                    subst ha
                    subst hh1
                    rw [hgr] at hg1r
                    injection hg1r with hw1n
                    subst hw1n
                    have hgb1na : hget hb1 a = some nn := by
                      rw [hb1eq, hget_hset_ne _ _ (fun he => hnar he.symm)]
                      exact hn
                    rw [hgb1na] at hg2a
                    injection hg2a with hw2n
                    subst hw2n
                    refine ⟨fun h0 => Option.noConfusion h0,
                      fun r0 hr0 => ?_, fun p hp => ?_⟩
                    · injection hr0 with hr0
                      subst hr0
                      exact ⟨rfl, by simp, rfl⟩
                    · have hpr : r = p := by simpa using hp
                      subst hpr
                      refine ⟨rn, { rn with right := some a },
                        { nn with parent := some r }, hgr, ?_, ?_, rfl, ?_⟩
                      · rw [hb2eq, hget_hset_ne _ _ (fun he => hnar he),
                          hb1eq, hget_hset_self _ _ _ hgr]
                      · rw [hb2eq, hget_hset_self _ _ _ hgb1na]
                      · rw [if_neg hc]
                        exact ⟨hrl, rfl⟩
                  | some c =>
                    obtain ⟨ha, hrestne, hresthd⟩ := ihB c hrl
                    subst ha
                    refine ⟨fun h0 => Option.noConfusion h0,
                      fun r0 hr0 => ?_, fun p hp => ?_⟩
                    · injection hr0 with hr0
                      subst hr0
                      exact ⟨rfl, by simp, rfl⟩
                    · rw [getLast?_cons_ne_nil r hrestne] at hp
                      obtain ⟨pn, pn1, nn1, hpnh, hpn1, hnn1, hpar, hcond⟩ :=
                        ihC p hp
                      have hpmem : p ∈ rest := mem_of_getLast? hp
                      have hcmem : a ∈ rest := mem_of_head? hresthd
                      have hpr : p ≠ r := fun he => hrnotin (he ▸ hpmem)
                      have hnap : na ≠ p := fun he => hnarest (he ▸ hpmem)
                      have hnac : na ≠ a := fun he => hnarest (he ▸ hcmem)
                      have hacr : a ≠ r := fun he => hrnotin (he ▸ hcmem)
                      have hgb1na : hget hb1 na = some nn1 := by
                        rw [hb1eq, hget_hset_ne _ _ (fun he => hnar he.symm)]
                        exact hnn1
                      have hgb2na : hget hb2 na = some nn1 := by
                        rw [hb2eq, hget_hset_ne _ _ (fun he => hnac he.symm)]
                        exact hgb1na
                      by_cases hpc : p = a
                      · subst hpc
                        have hgb1p : hget hb1 p = some pn1 := by
                          rw [hb1eq,
                            hget_hset_ne _ _ (fun he => hpr he.symm)]
                          exact hpn1
                        rw [hgb1p] at hg2a
                        injection hg2a with hw2n
                        subst hw2n
                        refine ⟨pn, { pn1 with parent := some r }, nn1,
                          hpnh, ?_, hgb2na, hpar, ?_⟩
                        · rw [hb2eq, hget_hset_self _ _ _ hgb1p]
                        · by_cases hcp : 0 < cmp pn.key nn.key
                          · rw [if_pos hcp]
                            rw [if_pos hcp] at hcond
                            exact ⟨hcond.1, hcond.2⟩
                          · rw [if_neg hcp]
                            rw [if_neg hcp] at hcond
                            exact ⟨hcond.1, hcond.2⟩
                      · have hgb2p : hget hb2 p = some pn1 := by
                          rw [hb2eq,
                            hget_hset_ne _ _ (fun he => hpc he.symm),
                            hb1eq,
                            hget_hset_ne _ _ (fun he => hpr he.symm)]
                          exact hpn1
                        exact ⟨pn, pn1, nn1, hpnh, hgb2p, hgb2na, hpar,
                          hcond⟩

/-- Witness for C7: inserting the fresh node 2 (key 7) into the one-node
tree rooted at address 1 (key 5) descends right at the root (7 is not
strictly less than 5), and links node 2 into the root's previously null
right slot with node 2's parent set to the root. -/
theorem c7_witness :
    ((some 1 = (none : Option Nat) →
        ([1] : List Nat) = [] ∧ 1 = 2 ∧ c7WHeap2 = c7WHeap) ∧
     (∀ r, (some 1 : Option Nat) = some r →
        1 = r ∧ ([1] : List Nat) ≠ [] ∧ ([1] : List Nat).head? = some r) ∧
     (∀ p, ([1] : List Nat).getLast? = some p →
        ∃ pn pn2 nn2, hget c7WHeap p = some pn ∧
          hget c7WHeap2 p = some pn2 ∧ hget c7WHeap2 2 = some nn2 ∧
          nn2.parent = some p ∧
          (if 0 < intcomparer pn.key (INIT_RBNODE (7 : Int)).key
           then pn.left = none ∧ pn2.left = some 2
           else pn.right = none ∧ pn2.right = some 2))) :=
  c7_BstInsert_places_at_first_null intcomparer 5 c7WHeap (some 1) 2
    (INIT_RBNODE 7) c7WHeap2 1 [1] (by rfl) (by rfl) (by rfl) (by decide)
    (by decide)

end RbTreeC
